import Mathlib

/-!
Shallow embedding of the debate orchestration core (`nodes.py`, driven by
`main.py`'s `run_debate` loop) of the Multi-Agent-Debate-DAG repository.

Python strings are modelled as lists of characters (`Str`), matching
Python's code-point string semantics.  The argument generator
(`agent_generate_argument` / `pick_subexample`) is an external collaborator
seeded from Python's randomized `hash`; it is modelled as an oracle
parameter supplying the generated text and the disambiguating sub-example
for each call, exactly as the nodes consume them.
-/

namespace Debate

/-- Python `str` modelled as a list of code points. -/
abbrev Str : Type := List Char

/-- Literal helper: a Lean string literal as a `Str`. -/
def str (s : String) : Str := s.data

/-- Python `str.strip()`: drop whitespace from both ends. -/
def pyStrip (s : Str) : Str :=
  ((s.dropWhile Char.isWhitespace).reverse.dropWhile Char.isWhitespace).reverse

/-- Python `str.lower()` (ASCII-relevant part). -/
def pyLower (s : Str) : Str := s.map Char.toLower

/-- `candidate.strip().lower()` — the normalization used by the repeat guard. -/
def pyNorm (s : Str) : Str := pyLower (pyStrip s)

/-- Python `text.split(".")`: split at every `'.'`, keeping empty pieces. -/
def splitOnDot : Str → List Str
  | [] => [[]]
  | c :: cs =>
    match splitOnDot cs with
    | [] => [[]]
    | r :: rs => if c = '.' then [] :: r :: rs else (c :: r) :: rs

/-- Python `str(n)` for a non-negative integer. -/
def natStr (n : Nat) : Str := (Nat.repr n).data

/-- Python `needle in hay` substring containment. -/
def containsSub (hay needle : Str) : Bool :=
  (List.range (hay.length + 1)).any fun i => needle.isPrefixOf (hay.drop i)

/-- One transcript entry `{"round": r, "agent": a, "text": t}` (`nodes.py` line 46). -/
structure Turn where
  round : Nat
  agent : Str
  text : Str
deriving DecidableEq

/-- The `DebateState` TypedDict (`nodes.py` lines 9-18).  Missing keys of the
Python dict are modelled by the defaults the code supplies via
`get`/`setdefault` (`0` for `round`, empty for the lists and strings). -/
structure DebateState where
  topic : Str := []
  round : Nat := 0
  transcript : List Turn := []
  memory_scientist : List Str := []
  memory_philosopher : List Str := []
  used_args : List Str := []
  summary_scientist : Str := []
  summary_philosopher : Str := []
  winner : Str := []
  judge_summary : Str := []
  judge_justification : Str := []
deriving DecidableEq

/-- The agent tag `"Scientist"`. -/
def sciName : Str := str "Scientist"

/-- The agent tag `"Philosopher"`. -/
def philName : Str := str "Philosopher"

/-- State right after `main.py` does `state = DebateState(); state["topic"] = topic`. -/
def initState (topic : Str) : DebateState := { topic := topic }

/-- `check_turn` (`nodes.py` lines 23-31): raises when `round >= 8`.
Errors are modelled as `some message`. -/
def check_turn (s : DebateState) : Option Str :=
  if 8 ≤ s.round then some (str "Max rounds already reached") else none

/-- `has_repeat` (`nodes.py` lines 33-36): normalized membership in `used_args`. -/
def has_repeat (candidate : Str) (s : DebateState) : Bool :=
  decide (pyNorm candidate ∈ s.used_args)

/-- `mark_used` (`nodes.py` lines 38-40). -/
def mark_used (candidate : Str) (s : DebateState) : DebateState :=
  { s with used_args := s.used_args ++ [pyNorm candidate] }

/-- `append_transcript` (`nodes.py` lines 42-46). -/
def append_transcript (agent : Str) (text : Str) (s : DebateState) : DebateState :=
  { s with
      round := s.round + 1,
      transcript := s.transcript ++ [⟨s.round + 1, agent, text⟩] }

/-- `make_bullet_from_text` (`nodes.py` lines 58-67). -/
def make_bullet_from_text (text : Str) : Str :=
  let sentences := ((splitOnDot text).map pyStrip).filter (fun s => !s.isEmpty)
  match sentences with
  | [] => text.take 120
  | s0 :: rest =>
    let bullet := s0 ++ (match rest with | [] => [] | s1 :: _ => str ". " ++ s1)
    bullet.take 250

/-- `update_memory_for_agent` (`nodes.py` lines 48-56). -/
def update_memory_for_agent (agent : Str) (text : Str) (s : DebateState) : DebateState :=
  if agent = sciName then
    { s with memory_scientist := s.memory_scientist ++ [make_bullet_from_text text] }
  else
    { s with memory_philosopher := s.memory_philosopher ++ [make_bullet_from_text text] }

/-- The argument committed by the Scientist node (`nodes.py` lines 136-139):
the generated text, with the single disambiguating addendum when it repeats. -/
def sciArg (gen sub : Str) (s : DebateState) : Str :=
  if has_repeat gen s then gen ++ str " (further clarification: " ++ sub ++ str ")" else gen

/-- The argument committed by the Philosopher node (`nodes.py` lines 152-154). -/
def philArg (gen sub : Str) (s : DebateState) : Str :=
  if has_repeat gen s then gen ++ str " (added thought: " ++ sub ++ str ")" else gen

/-- `agent_node_scientist` (`nodes.py` lines 130-145), with the collaborator
outputs (`agent_generate_argument`, `pick_subexample`) passed in as `gen`/`sub`.
A raised `ValueError` is `some message` with the state as mutated so far. -/
def agent_node_scientist (gen sub : Str) (s : DebateState) : DebateState × Option Str :=
  match check_turn s with
  | some e => (s, some e)
  | none =>
    let arg := sciArg gen sub s
    (update_memory_for_agent sciName arg
      (append_transcript sciName arg (mark_used arg s)), none)

/-- `agent_node_philosopher` (`nodes.py` lines 147-160). -/
def agent_node_philosopher (gen sub : Str) (s : DebateState) : DebateState × Option Str :=
  match check_turn s with
  | some e => (s, some e)
  | none =>
    let arg := philArg gen sub s
    (update_memory_for_agent philName arg
      (append_transcript philName arg (mark_used arg s)), none)

/-- Python `mem[-3:]`. -/
def lastThree (l : List Str) : List Str := l.drop (l.length - 3)

/-- Python `"; ".join(l)`. -/
def joinSemi (l : List Str) : Str := List.intercalate (str "; ") l

/-- `memory_node` (`nodes.py` lines 162-172). -/
def memory_node (s : DebateState) : DebateState :=
  { s with
      summary_scientist := joinSemi (lastThree s.memory_scientist),
      summary_philosopher := joinSemi (lastThree s.memory_philosopher) }

/-- Scientist 2-point keyword tier (`nodes.py` line 187). -/
def sciPrimary : List Str :=
  [str "risk", str "safety", str "standards", str "audit", str "testing", str "accountab"]

/-- Scientist 1-point keyword tier (`nodes.py` line 189). -/
def sciSecondary : List Str :=
  [str "data", str "medical", str "surveil", str "autonomous"]

/-- Philosopher 2-point keyword tier (`nodes.py` line 192). -/
def philPrimary : List Str :=
  [str "freedom", str "progress", str "ethical", str "autonomy", str "philosoph"]

/-- Philosopher 1-point keyword tier (`nodes.py` line 194). -/
def philSecondary : List Str :=
  [str "overregulate", str "slow", str "creativity", str "experimen"]

/-- Points one turn contributes given a 2-point and a 1-point tier
(`nodes.py` lines 186-195, one branch of the loop body). -/
def turnPoints (primary secondary : List Str) (t : Turn) : Nat :=
  (if primary.any (fun k => containsSub (pyLower t.text) k) then 2 else 0) +
  (if secondary.any (fun k => containsSub (pyLower t.text) k) then 1 else 0)

/-- The score totals computed by `judge_node` (`nodes.py` lines 182-199):
the keyword loop over the transcript plus `len(set(memory))` for each side. -/
def judgeScores (s : DebateState) : Nat × Nat :=
  let p := s.transcript.foldl
    (fun (acc : Nat × Nat) item =>
      if item.agent = sciName then
        (acc.1 + turnPoints sciPrimary sciSecondary item, acc.2)
      else
        (acc.1, acc.2 + turnPoints philPrimary philSecondary item))
    (0, 0)
  (p.1 + s.memory_scientist.dedup.length, p.2 + s.memory_philosopher.dedup.length)

/-- The dict returned by `judge_node` (`nodes.py` line 225). -/
structure JudgeOut where
  winner : Str
  justification : Str
  summary : Str
deriving DecidableEq

/-- The `summary` string built by `judge_node` (`nodes.py` lines 202-207). -/
def judgeSummary (s : DebateState) : Str :=
  List.intercalate (str "\n")
    ([str "Topic: " ++ s.topic, str "Transcript summary (round by round):"] ++
      s.transcript.map (fun t =>
        str "R" ++ natStr t.round ++ str " " ++ t.agent ++ str ": " ++ t.text))

/-- The winner chosen by `judge_node` (`nodes.py` lines 210-215). -/
def judgeWinner (s : DebateState) : Str :=
  if (judgeScores s).2 < (judgeScores s).1 then sciName
  else if (judgeScores s).1 < (judgeScores s).2 then philName
  else str "Tie"

/-- The justification f-string of `judge_node` (`nodes.py` line 217). -/
def judgeJust (s : DebateState) : Str :=
  str "sci_score=" ++ natStr (judgeScores s).1 ++ str ", phil_score=" ++
    natStr (judgeScores s).2 ++ str " -> winner: " ++ judgeWinner s

/-- `judge_node` (`nodes.py` lines 174-225). -/
def judge_node (s : DebateState) : DebateState × Except Str JudgeOut :=
  if s.transcript.length < 8 then
    (s, Except.error (str "Debate incomplete; judge invoked too early"))
  else
    ({ s with
        judge_summary := judgeSummary s,
        winner := judgeWinner s,
        judge_justification := judgeJust s },
     Except.ok ⟨judgeWinner s, judgeJust s, judgeSummary s⟩)

/-- `user_input_node` (`nodes.py` lines 116-128): raises on an empty stripped
topic; the `setdefault` calls are identities in the total-state model. -/
def user_input_node (s : DebateState) : DebateState × Option Str :=
  if (pyStrip s.topic).isEmpty then (s, some (str "No topic provided")) else (s, none)

/-- The `while state["round"] < max_rounds` loop of `run_debate`
(`main.py` lines 46-65), with fuel.  `gen a r` / `sub a r` are the external
generator's outputs for agent `a` at round `r`. -/
def run_loop (gen sub : Str → Nat → Str) : Nat → DebateState → DebateState × Option Str
  | 0, s => (s, none)
  | fuel + 1, s =>
    if s.round < 8 then
      let nr := s.round + 1
      let step :=
        if nr % 2 = 1 then agent_node_scientist (gen sciName nr) (sub sciName nr) s
        else agent_node_philosopher (gen philName nr) (sub philName nr) s
      match step with
      | (s1, some e) => (s1, some e)
      | (s1, none) => run_loop gen sub fuel (memory_node s1)
    else (s, none)

/-- `run_debate` (`main.py` lines 23-90), restricted to the state-machine core:
topic acceptance, the 8-round loop, then the judge. -/
def run_debate (gen sub : Str → Nat → Str) (topic : Str) :
    DebateState × Except Str JudgeOut :=
  let s0 := initState topic
  match user_input_node s0 with
  | (s1, some e) => (s1, Except.error e)
  | (s1, none) =>
    let s2 := { s1 with round := 0 }
    match run_loop gen sub 9 s2 with
    | (s3, some e) => (s3, Except.error e)
    | (s3, none) => judge_node s3

/-! ### Basic lemmas about the node functions -/

lemma check_turn_none {s : DebateState} (h : s.round < 8) : check_turn s = none := by
  simp only [check_turn, ite_eq_right_iff]
  omega

lemma check_turn_some {s : DebateState} (h : 8 ≤ s.round) :
    check_turn s = some (str "Max rounds already reached") := by
  simp [check_turn, h]

lemma agent_sci_eq (gen sub : Str) (s : DebateState) (h : s.round < 8) :
    agent_node_scientist gen sub s =
      ({ s with
          round := s.round + 1,
          transcript := s.transcript ++ [⟨s.round + 1, sciName, sciArg gen sub s⟩],
          used_args := s.used_args ++ [pyNorm (sciArg gen sub s)],
          memory_scientist :=
            s.memory_scientist ++ [make_bullet_from_text (sciArg gen sub s)] }, none) := by
  unfold agent_node_scientist
  rw [check_turn_none h]
  rfl

lemma agent_phil_eq (gen sub : Str) (s : DebateState) (h : s.round < 8) :
    agent_node_philosopher gen sub s =
      ({ s with
          round := s.round + 1,
          transcript := s.transcript ++ [⟨s.round + 1, philName, philArg gen sub s⟩],
          used_args := s.used_args ++ [pyNorm (philArg gen sub s)],
          memory_philosopher :=
            s.memory_philosopher ++ [make_bullet_from_text (philArg gen sub s)] }, none) := by
  unfold agent_node_philosopher
  rw [check_turn_none h]
  rfl

lemma agent_sci_err (gen sub : Str) (s : DebateState) (h : 8 ≤ s.round) :
    agent_node_scientist gen sub s = (s, some (str "Max rounds already reached")) := by
  unfold agent_node_scientist
  rw [check_turn_some h]

lemma agent_phil_err (gen sub : Str) (s : DebateState) (h : 8 ≤ s.round) :
    agent_node_philosopher gen sub s = (s, some (str "Max rounds already reached")) := by
  unfold agent_node_philosopher
  rw [check_turn_some h]

/-- C8: with the round counter at (or beyond) the configured total of 8, either
agent node fails with the turn-order (max-rounds) error and returns the state
exactly as it was: transcript, both memories, used set and round untouched. -/
theorem C8_turn_order_violation_preserves_state (gen sub : Str) (s : DebateState)
    (h : 8 ≤ s.round) :
    agent_node_scientist gen sub s = (s, some (str "Max rounds already reached")) ∧
    agent_node_philosopher gen sub s = (s, some (str "Max rounds already reached")) :=
  ⟨agent_sci_err gen sub s h, agent_phil_err gen sub s h⟩

def sFull : DebateState :=
  { topic := str "t", round := 8,
    transcript := [⟨1, sciName, str "a"⟩],
    memory_scientist := [str "a"], used_args := [str "a"] }

/-- Witness for C8 at a concrete saturated state. -/
theorem C8_witness :
    agent_node_scientist (str "x") (str "y") sFull =
      (sFull, some (str "Max rounds already reached")) ∧
    agent_node_philosopher (str "x") (str "y") sFull =
      (sFull, some (str "Max rounds already reached")) :=
  C8_turn_order_violation_preserves_state (str "x") (str "y") sFull (by decide)

/-- C9: a topic that is empty after trimming makes the session fail with the
missing-topic error at topic acceptance, with no Turn created and round 0. -/
theorem C9_missing_topic (gen sub : Str → Nat → Str) (topic : Str)
    (h : pyStrip topic = []) :
    run_debate gen sub topic = (initState topic, Except.error (str "No topic provided")) ∧
    (initState topic).transcript = [] ∧ (initState topic).round = 0 := by
  refine ⟨?_, rfl, rfl⟩
  simp [run_debate, user_input_node, initState, h]

/-- Witness for C9 on a whitespace-only topic. -/
theorem C9_witness :
    run_debate (fun _ _ => str "a") (fun _ _ => str "b") (str "  ") =
      (initState (str "  "), Except.error (str "No topic provided")) ∧
    (initState (str "  ")).transcript = [] ∧ (initState (str "  ")).round = 0 :=
  C9_missing_topic (fun _ _ => str "a") (fun _ _ => str "b") (str "  ") (by decide)

lemma agent_sci_round_lt {gen sub : Str} {s s' : DebateState}
    (h : agent_node_scientist gen sub s = (s', none)) : s.round < 8 := by
  by_contra hge
  rw [agent_sci_err gen sub s (by omega)] at h
  exact Option.noConfusion (congrArg Prod.snd h)

lemma agent_phil_round_lt {gen sub : Str} {s s' : DebateState}
    (h : agent_node_philosopher gen sub s = (s', none)) : s.round < 8 := by
  by_contra hge
  rw [agent_phil_err gen sub s (by omega)] at h
  exact Option.noConfusion (congrArg Prod.snd h)

/-- C10: a successful Scientist commit appends exactly one digest (derived from
the committed turn's own text) to the Scientist memory and leaves the
Philosopher memory untouched, and symmetrically for the Philosopher. -/
theorem C10_memory_frame (gen sub : Str) (s s' : DebateState) :
    (agent_node_scientist gen sub s = (s', none) →
      ∃ t, s'.transcript = s.transcript ++ [t] ∧ t.agent = sciName ∧
        s'.memory_scientist = s.memory_scientist ++ [make_bullet_from_text t.text] ∧
        s'.memory_philosopher = s.memory_philosopher) ∧
    (agent_node_philosopher gen sub s = (s', none) →
      ∃ t, s'.transcript = s.transcript ++ [t] ∧ t.agent = philName ∧
        s'.memory_philosopher = s.memory_philosopher ++ [make_bullet_from_text t.text] ∧
        s'.memory_scientist = s.memory_scientist) := by
  constructor
  · intro h
    have hlt := agent_sci_round_lt h
    rw [agent_sci_eq gen sub s hlt] at h
    obtain ⟨h1, -⟩ := Prod.mk.injEq .. ▸ h
    refine ⟨⟨s.round + 1, sciName, sciArg gen sub s⟩, ?_, rfl, ?_, ?_⟩ <;>
      simp [← h1]
  · intro h
    have hlt := agent_phil_round_lt h
    rw [agent_phil_eq gen sub s hlt] at h
    obtain ⟨h1, -⟩ := Prod.mk.injEq .. ▸ h
    refine ⟨⟨s.round + 1, philName, philArg gen sub s⟩, ?_, rfl, ?_, ?_⟩ <;>
      simp [← h1]

def sMid : DebateState :=
  { topic := str "t", round := 2,
    transcript := [⟨1, sciName, str "a"⟩, ⟨2, philName, str "b"⟩],
    memory_scientist := [str "a"], memory_philosopher := [str "b"],
    used_args := [str "a", str "b"] }

/-- Witness for C10 at a concrete mid-session state. -/
theorem C10_witness :
    (∃ t, (agent_node_scientist (str "c") (str "d") sMid).1.transcript =
        sMid.transcript ++ [t] ∧ t.agent = sciName ∧
      (agent_node_scientist (str "c") (str "d") sMid).1.memory_scientist =
        sMid.memory_scientist ++ [make_bullet_from_text t.text] ∧
      (agent_node_scientist (str "c") (str "d") sMid).1.memory_philosopher =
        sMid.memory_philosopher) :=
  (C10_memory_frame (str "c") (str "d") sMid
    (agent_node_scientist (str "c") (str "d") sMid).1).1 (by decide)

lemma lastThree_spec (l : List Str) : lastThree l = (l.reverse.take 3).reverse := by
  have h := List.rtake_eq_reverse_take_reverse (l := l) (n := 3)
  simpa [lastThree, List.rtake] using h

/-- C6: `memory_node` sets each participant's rolling summary to the join of
the (at most) 3 most recent digests in chronological order, and discards
nothing: both memory sequences and the transcript pass through unchanged. -/
theorem C6_rolling_summary (s : DebateState) :
    (memory_node s).summary_scientist = joinSemi ((s.memory_scientist.reverse.take 3).reverse) ∧
    (memory_node s).summary_philosopher =
      joinSemi ((s.memory_philosopher.reverse.take 3).reverse) ∧
    (memory_node s).memory_scientist = s.memory_scientist ∧
    (memory_node s).memory_philosopher = s.memory_philosopher ∧
    (memory_node s).transcript = s.transcript ∧
    (memory_node s).round = s.round :=
  ⟨by simp [memory_node, lastThree_spec], by simp [memory_node, lastThree_spec], rfl, rfl,
    rfl, rfl⟩

/-! ### Judge basics -/

lemma judge_node_error {s : DebateState} (h : s.transcript.length < 8) :
    judge_node s = (s, Except.error (str "Debate incomplete; judge invoked too early")) := by
  rw [judge_node, if_pos h]

lemma judge_node_ok {s : DebateState} (h : ¬ s.transcript.length < 8) :
    judge_node s =
      ({ s with
          judge_summary := judgeSummary s,
          winner := judgeWinner s,
          judge_justification := judgeJust s },
       Except.ok ⟨judgeWinner s, judgeJust s, judgeSummary s⟩) := by
  rw [judge_node, if_neg h]

/-- C7 (amended): `judge_node` fails with the premature-judgment error exactly
when the transcript is shorter than 8, and succeeds whenever it has at least 8
entries — in particular on a 7-entry transcript it fails and on an 8-entry one
it succeeds. -/
theorem C7_premature_judgment (s : DebateState) :
    (s.transcript.length < 8 →
      judge_node s = (s, Except.error (str "Debate incomplete; judge invoked too early"))) ∧
    (8 ≤ s.transcript.length → ((judge_node s).2.toOption).isSome = true) := by
  refine ⟨fun h => judge_node_error h, fun h => ?_⟩
  rw [judge_node_ok (s := s) (by omega)]
  rfl

def mkTurn (r : Nat) : Turn := ⟨r, if r % 2 = 1 then sciName else philName, natStr r⟩

def s7 : DebateState :=
  { topic := str "t", round := 7, transcript := (List.range' 1 7).map mkTurn }

def s8 : DebateState :=
  { topic := str "t", round := 8, transcript := (List.range' 1 8).map mkTurn }

def s9 : DebateState :=
  { topic := str "t", round := 9, transcript := (List.range' 1 9).map mkTurn }

/-- Counterexample to C7 as stated: on a 9-entry transcript (length ≠ 8) the
judge does not fail — it succeeds, because the code only checks `length < 8`. -/
theorem C7_counterexample :
    s9.transcript.length = 9 ∧ ((judge_node s9).2.toOption).isSome = true := by decide

/-- Witness for C7: a 7-entry transcript fails, an 8-entry one succeeds. -/
theorem C7_witness :
    judge_node s7 = (s7, Except.error (str "Debate incomplete; judge invoked too early")) ∧
    ((judge_node s8).2.toOption).isSome = true :=
  ⟨(C7_premature_judgment s7).1 (by decide), (C7_premature_judgment s8).2 (by decide)⟩

/-! ### Repetition guard -/

lemma sciArg_of_repeat {gen sub : Str} {s : DebateState} (h : has_repeat gen s = true) :
    sciArg gen sub s = gen ++ str " (further clarification: " ++ sub ++ str ")" := by
  rw [sciArg, if_pos h]

lemma philArg_of_repeat {gen sub : Str} {s : DebateState} (h : has_repeat gen s = true) :
    philArg gen sub s = gen ++ str " (added thought: " ++ sub ++ str ")" := by
  rw [philArg, if_pos h]

lemma append_ne_self (gen x : Str) (hx : x ≠ []) : gen ++ x ≠ gen := by
  intro h
  have := congrArg List.length h
  simp only [List.length_append] at this
  exact hx (List.length_eq_zero.mp (by omega))

/-- C4 (amended): on a collision the guard appends exactly one addendum, so the
committed text differs from the colliding raw candidate, and it registers the
final normalized string unconditionally — without re-checking it, which is why
transcript-wide byte-distinctness does not follow (see the counterexample). -/
theorem C4_single_pass_guard (gen sub : Str) (s s' : DebateState) :
    (agent_node_scientist gen sub s = (s', none) →
      s'.used_args = s.used_args ++ [pyNorm (sciArg gen sub s)] ∧
      s'.transcript.map Turn.text = s.transcript.map Turn.text ++ [sciArg gen sub s] ∧
      (has_repeat gen s = true →
        sciArg gen sub s = gen ++ str " (further clarification: " ++ sub ++ str ")" ∧
        sciArg gen sub s ≠ gen) ∧
      (has_repeat gen s = false → sciArg gen sub s = gen)) ∧
    (agent_node_philosopher gen sub s = (s', none) →
      s'.used_args = s.used_args ++ [pyNorm (philArg gen sub s)] ∧
      s'.transcript.map Turn.text = s.transcript.map Turn.text ++ [philArg gen sub s] ∧
      (has_repeat gen s = true →
        philArg gen sub s = gen ++ str " (added thought: " ++ sub ++ str ")" ∧
        philArg gen sub s ≠ gen) ∧
      (has_repeat gen s = false → philArg gen sub s = gen)) := by
  constructor
  · intro h
    have hlt := agent_sci_round_lt h
    rw [agent_sci_eq gen sub s hlt] at h
    obtain ⟨h1, -⟩ := Prod.mk.injEq .. ▸ h
    refine ⟨by simp [← h1], by simp [← h1], fun hr => ⟨sciArg_of_repeat hr, ?_⟩,
      fun hr => by rw [sciArg, if_neg (by simp [hr])]⟩
    rw [sciArg_of_repeat hr, List.append_assoc, List.append_assoc]
    exact append_ne_self gen _ (by simp [str])
  · intro h
    have hlt := agent_phil_round_lt h
    rw [agent_phil_eq gen sub s hlt] at h
    obtain ⟨h1, -⟩ := Prod.mk.injEq .. ▸ h
    refine ⟨by simp [← h1], by simp [← h1], fun hr => ⟨philArg_of_repeat hr, ?_⟩,
      fun hr => by rw [philArg, if_neg (by simp [hr])]⟩
    rw [philArg_of_repeat hr, List.append_assoc, List.append_assoc]
    exact append_ne_self gen _ (by simp [str])

/-- Generator oracle that makes the Scientist produce the same raw candidate
on every odd round (the Philosopher gets fresh text each even round). -/
def dupGen : Str → Nat → Str := fun a r => if a = sciName then str "a" else natStr r

/-- Sub-example oracle that always returns the same clarification text. -/
def dupSub : Str → Nat → Str := fun _ _ => str "c"

/-- Counterexample to C4 as stated: in the session driven by `dupGen`/`dupSub`
the amended string of round 3 is re-generated and re-amended identically at
rounds 5 and 7, so the committed normalized texts are not pairwise distinct. -/
theorem C4_counterexample :
    ¬ (((run_debate dupGen dupSub (str "t")).1.transcript.map
        (fun t => pyNorm t.text)).Nodup) := by decide

def sFull7 : DebateState :=
  { topic := str "t", round := 1,
    transcript := [⟨1, sciName, str "a"⟩],
    memory_scientist := [str "a"], used_args := [str "a"] }

/-- Witness for C4: a concrete Scientist commit resolving a collision. -/
theorem C4_witness :
    (agent_node_scientist (str "a") (str "d") sFull7).1.used_args =
        sFull7.used_args ++ [pyNorm (sciArg (str "a") (str "d") sFull7)] ∧
    (agent_node_scientist (str "a") (str "d") sFull7).1.transcript.map Turn.text =
        sFull7.transcript.map Turn.text ++ [sciArg (str "a") (str "d") sFull7] ∧
    (has_repeat (str "a") sFull7 = true →
      sciArg (str "a") (str "d") sFull7 =
        str "a" ++ str " (further clarification: " ++ str "d" ++ str ")" ∧
      sciArg (str "a") (str "d") sFull7 ≠ str "a") ∧
    (has_repeat (str "a") sFull7 = false → sciArg (str "a") (str "d") sFull7 = str "a") :=
  (C4_single_pass_guard (str "a") (str "d") sFull7
    (agent_node_scientist (str "a") (str "d") sFull7).1).1 (by decide)

/-! ### Digest extraction -/

lemma splitOnDot_no_dot : ∀ t : Str, '.' ∉ t → splitOnDot t = [t]
  | [], _ => rfl
  | c :: cs, h => by
    have hc : c ≠ '.' := fun hh => h (hh ▸ List.mem_cons_self c cs)
    have ih := splitOnDot_no_dot cs (fun hm => h (List.mem_cons_of_mem c hm))
    simp [splitOnDot, ih, hc]

/-- C5 (amended): the extractor splits at `'.'`, trims the fragments and drops
empty ones; with no fragment left it returns the leading 120 raw characters;
otherwise it keeps the first fragment, appends the second after `". "` when
present, and truncates to the distinct 250-character cap — so on terminator-free
non-blank text the digest is the trimmed text truncated to 250, and the result
never exceeds 250 characters. -/
theorem C5_bullet_extraction (text : Str) :
    (make_bullet_from_text text).length ≤ 250 ∧
    ((((splitOnDot text).map pyStrip).filter (fun s => !s.isEmpty)) = [] →
      make_bullet_from_text text = text.take 120) ∧
    ('.' ∉ text → pyStrip text ≠ [] →
      make_bullet_from_text text = (pyStrip text).take 250) ∧
    (∀ s0 s1 rest,
      (((splitOnDot text).map pyStrip).filter (fun s => !s.isEmpty)) = s0 :: s1 :: rest →
      make_bullet_from_text text = (s0 ++ str ". " ++ s1).take 250) ∧
    (∀ s0, (((splitOnDot text).map pyStrip).filter (fun s => !s.isEmpty)) = [s0] →
      make_bullet_from_text text = s0.take 250) := by
  refine ⟨?_, fun hnil => ?_, fun hd hne => ?_, fun s0 s1 rest hcons => ?_, fun s0 hone => ?_⟩
  · unfold make_bullet_from_text
    cases hs : ((splitOnDot text).map pyStrip).filter (fun s => !s.isEmpty) with
    | nil => simp
    | cons s0 rest => cases rest <;> simp
  · unfold make_bullet_from_text
    rw [hnil]
  · unfold make_bullet_from_text
    rw [splitOnDot_no_dot text hd]
    have hfe : (pyStrip text).isEmpty = false := by
      cases hp : pyStrip text with
      | nil => exact absurd hp hne
      | cons a l => rfl
    simp [hfe]
  · unfold make_bullet_from_text
    rw [hcons]
    simp [List.append_assoc]
  · unfold make_bullet_from_text
    rw [hone]
    simp

/-- Terminator-free text of 121 blanks, longer than the 120-character fallback. -/
def wsText : Str := List.replicate 121 ' '

/-- Counterexample to C5 as stated: on terminator-free `wsText` the code
returns its leading 120 characters, not a leading substring of the
250-character cap used for the concatenation (which would be all 121). -/
theorem C5_counterexample :
    '.' ∉ wsText ∧ wsText.take 250 = wsText ∧
    make_bullet_from_text wsText = List.replicate 120 ' ' ∧
    make_bullet_from_text wsText ≠ wsText.take 250 := by decide

/-- Witness for C5 on concrete inputs for each clause. -/
theorem C5_witness :
    make_bullet_from_text (str "..") = (str "..").take 120 ∧
    make_bullet_from_text (str " hi ") = (pyStrip (str " hi ")).take 250 ∧
    make_bullet_from_text (str "a. b. c") = (str "a" ++ str ". " ++ str "b").take 250 ∧
    make_bullet_from_text (str "hi.") = (str "hi").take 250 :=
  ⟨(C5_bullet_extraction (str "..")).2.1 (by decide),
   (C5_bullet_extraction (str " hi ")).2.2.1 (by decide) (by decide),
   (C5_bullet_extraction (str "a. b. c")).2.2.2.1 (str "a") (str "b") [str "c"] (by decide),
   (C5_bullet_extraction (str "hi.")).2.2.2.2 (str "hi") (by decide)⟩

/-! ### Turn scheduling invariants -/

/-- Bookkeeping invariant of the loop: transcript length tracks the round
counter, the stored round numbers are exactly `1..round` in order, and every
turn's agent is determined by the parity of its round. -/
def schedInv (s : DebateState) : Prop :=
  s.transcript.length = s.round ∧
  s.transcript.map Turn.round = List.range' 1 s.round ∧
  ∀ t ∈ s.transcript, t.agent = if t.round % 2 = 1 then sciName else philName

lemma range'_concat_1 (r : Nat) : List.range' 1 (r + 1) = List.range' 1 r ++ [r + 1] := by
  have h : List.range' 1 (r + 1) = List.range' 1 r ++ [1 + 1 * r] := List.range'_concat 1 r
  simpa [Nat.add_comm] using h

lemma schedInv_extend {s s' : DebateState} {name arg : Str}
    (hr : s'.round = s.round + 1)
    (ht : s'.transcript = s.transcript ++ [⟨s.round + 1, name, arg⟩])
    (hinv : schedInv s)
    (hname : name = if (s.round + 1) % 2 = 1 then sciName else philName) :
    schedInv s' := by
  obtain ⟨hlen, hmap, hag⟩ := hinv
  refine ⟨?_, ?_, ?_⟩
  · rw [ht, hr, List.length_append, hlen]
    rfl
  · rw [ht, hr, List.map_append, hmap, range'_concat_1]
    rfl
  · intro t htm
    rw [ht] at htm
    rcases List.mem_append.mp htm with hm | hm
    · exact hag t hm
    · have : t = ⟨s.round + 1, name, arg⟩ := by simpa using hm
      subst this
      exact hname

lemma schedInv_memory_node {s : DebateState} (h : schedInv s) : schedInv (memory_node s) :=
  ⟨h.1, h.2.1, h.2.2⟩

lemma loop_step_ok (gen sub : Str → Nat → Str) (s : DebateState)
    (hlt : s.round < 8) (hinv : schedInv s) :
    ∃ s1, (if (s.round + 1) % 2 = 1
        then agent_node_scientist (gen sciName (s.round + 1)) (sub sciName (s.round + 1)) s
        else agent_node_philosopher (gen philName (s.round + 1)) (sub philName (s.round + 1)) s)
      = (s1, none) ∧ schedInv (memory_node s1) ∧ (memory_node s1).round = s.round + 1 := by
  by_cases hp : (s.round + 1) % 2 = 1
  · rw [if_pos hp, agent_sci_eq _ _ s hlt]
    refine ⟨_, rfl, schedInv_memory_node (schedInv_extend rfl rfl hinv ?_), rfl⟩
    rw [if_pos hp]
  · rw [if_neg hp, agent_phil_eq _ _ s hlt]
    refine ⟨_, rfl, schedInv_memory_node (schedInv_extend rfl rfl hinv ?_), rfl⟩
    rw [if_neg hp]

lemma run_loop_succ (gen sub : Str → Nat → Str) (n : Nat) (s : DebateState) :
    run_loop gen sub (n + 1) s =
      if s.round < 8 then
        match (if (s.round + 1) % 2 = 1
            then agent_node_scientist (gen sciName (s.round + 1)) (sub sciName (s.round + 1)) s
            else agent_node_philosopher (gen philName (s.round + 1)) (sub philName (s.round + 1)) s) with
        | (s1, some e) => (s1, some e)
        | (s1, none) => run_loop gen sub n (memory_node s1)
      else (s, none) := rfl

lemma run_loop_ok (gen sub : Str → Nat → Str) :
    ∀ fuel s, schedInv s → s.round ≤ 8 →
      (run_loop gen sub fuel s).2 = none ∧
      schedInv (run_loop gen sub fuel s).1 ∧
      (run_loop gen sub fuel s).1.round = min 8 (s.round + fuel) := by
  intro fuel
  induction fuel with
  | zero =>
    intro s hinv hle
    refine ⟨rfl, hinv, ?_⟩
    show s.round = min 8 (s.round + 0)
    omega
  | succ n ih =>
    intro s hinv hle
    by_cases hlt : s.round < 8
    · obtain ⟨s1, hstep, hinv1, hr1⟩ := loop_step_ok gen sub s hlt hinv
      rw [run_loop_succ, if_pos hlt, hstep]
      obtain ⟨ha, hb, hc⟩ := ih (memory_node s1) hinv1 (by omega)
      exact ⟨ha, hb, by rw [hc, hr1]; omega⟩
    · rw [run_loop_succ, if_neg hlt]
      exact ⟨rfl, hinv, by show s.round = _; omega⟩

lemma run_debate_no_topic (gen sub : Str → Nat → Str) (topic : Str)
    (h : pyStrip topic = []) :
    run_debate gen sub topic = (initState topic, Except.error (str "No topic provided")) := by
  simp [run_debate, user_input_node, initState, h]

lemma run_debate_ok (gen sub : Str → Nat → Str) (topic : Str) (h : pyStrip topic ≠ []) :
    ∃ s out, run_debate gen sub topic = (s, Except.ok out) ∧
      schedInv s ∧ s.round = 8 := by
  have hfe : (pyStrip topic).isEmpty = false := by
    cases hp : pyStrip topic with
    | nil => exact absurd hp h
    | cons a l => rfl
  have hinv0 : schedInv (initState topic) :=
    ⟨rfl, rfl, by intro t ht; exact absurd ht (List.not_mem_nil t)⟩
  obtain ⟨hnone, hinv3, hr3⟩ :=
    run_loop_ok gen sub 9 (initState topic) hinv0 (by show (0 : Nat) ≤ 8; decide)
  set s3 := (run_loop gen sub 9 (initState topic)).1 with hs3
  have hpair : run_loop gen sub 9 (initState topic) = (s3, none) := by
    rw [hs3, ← hnone]
  have hr8 : s3.round = 8 := hr3.trans rfl
  have hlen : ¬ s3.transcript.length < 8 := by
    rw [hinv3.1]
    omega
  refine ⟨{ s3 with
      judge_summary := judgeSummary s3,
      winner := judgeWinner s3,
      judge_justification := judgeJust s3 },
    ⟨judgeWinner s3, judgeJust s3, judgeSummary s3⟩, ?_, ?_, ?_⟩
  · unfold run_debate
    have huin : user_input_node (initState topic) = (initState topic, none) := by
      unfold user_input_node
      rw [if_neg (by show ¬ (pyStrip topic).isEmpty = true; rw [hfe]; exact Bool.false_ne_true)]
    have hrec : ({ initState topic with round := 0 } : DebateState) = initState topic := rfl
    simp only [huin, hrec, hpair]
    rw [judge_node_ok hlen]
  · exact ⟨hinv3.1, hinv3.2.1, hinv3.2.2⟩
  · exact hr8

/-- C2: in every session (any generator behaviour, any topic), each committed
turn's participant is fixed by round parity alone: Scientist exactly on the odd
rounds and Philosopher exactly on the even rounds. -/
theorem C2_deterministic_alternation (gen sub : Str → Nat → Str) (topic : Str)
    (s : DebateState) (r : Except Str JudgeOut)
    (h : run_debate gen sub topic = (s, r)) :
    ∀ t ∈ s.transcript,
      (t.agent = sciName ↔ t.round % 2 = 1) ∧ (t.agent = philName ↔ t.round % 2 = 0) := by
  have hagents : ∀ t ∈ s.transcript,
      t.agent = if t.round % 2 = 1 then sciName else philName := by
    by_cases htop : pyStrip topic = []
    · rw [run_debate_no_topic gen sub topic htop] at h
      obtain ⟨hs, -⟩ := Prod.mk.injEq .. ▸ h
      rw [← hs]
      intro t ht
      exact absurd ht (List.not_mem_nil t)
    · obtain ⟨s0, out, hok, hinv, -⟩ := run_debate_ok gen sub topic htop
      rw [hok] at h
      obtain ⟨hs, -⟩ := Prod.mk.injEq .. ▸ h
      rw [← hs]
      exact hinv.2.2
  intro t ht
  have hname : sciName ≠ philName := by decide
  have hpar := Nat.mod_two_eq_zero_or_one t.round
  rcases hpar with hp | hp
  · rw [hagents t ht, if_neg (by omega)]
    constructor
    · exact ⟨fun hh => absurd hh.symm hname, fun hh => by omega⟩
    · exact ⟨fun _ => hp, fun _ => rfl⟩
  · rw [hagents t ht, if_pos hp]
    constructor
    · exact ⟨fun _ => hp, fun _ => rfl⟩
    · exact ⟨fun hh => absurd hh hname, fun hh => by omega⟩

/-- Witness for C2 on a concrete completed session: its first committed turn is
a Scientist turn at the odd round 1. -/
theorem C2_witness :
    ((⟨1, sciName, str "a"⟩ : Turn).agent = sciName ↔ (⟨1, sciName, str "a"⟩ : Turn).round % 2 = 1) ∧
    ((⟨1, sciName, str "a"⟩ : Turn).agent = philName ↔ (⟨1, sciName, str "a"⟩ : Turn).round % 2 = 0) :=
  C2_deterministic_alternation dupGen dupSub (str "t")
    (run_debate dupGen dupSub (str "t")).1 (run_debate dupGen dupSub (str "t")).2 rfl
    ⟨1, sciName, str "a"⟩ (by decide)

/-- C3: each successful commit increments the round by exactly 1 and appends
exactly one Turn (so transcript length keeps tracking the round counter), and
a completed session's transcript rounds are exactly the sequence `1..8`. -/
theorem C3_round_transcript_sync :
    (∀ gen sub s s', agent_node_scientist gen sub s = (s', none) →
        s'.round = s.round + 1 ∧ (∃ t, s'.transcript = s.transcript ++ [t]) ∧
        (s.transcript.length = s.round → s'.transcript.length = s'.round)) ∧
    (∀ gen sub s s', agent_node_philosopher gen sub s = (s', none) →
        s'.round = s.round + 1 ∧ (∃ t, s'.transcript = s.transcript ++ [t]) ∧
        (s.transcript.length = s.round → s'.transcript.length = s'.round)) ∧
    (∀ gen sub topic s r, pyStrip topic ≠ [] → run_debate gen sub topic = (s, r) →
        s.transcript.length = 8 ∧ s.round = 8 ∧
        s.transcript.map Turn.round = List.range' 1 8) := by
  refine ⟨?_, ?_, ?_⟩
  · intro gen sub s s' h
    have hlt := agent_sci_round_lt h
    rw [agent_sci_eq gen sub s hlt] at h
    obtain ⟨h1, -⟩ := Prod.mk.injEq .. ▸ h
    refine ⟨by rw [← h1], ⟨_, by rw [← h1]⟩, fun hlen => ?_⟩
    rw [← h1]
    simp [hlen]
  · intro gen sub s s' h
    have hlt := agent_phil_round_lt h
    rw [agent_phil_eq gen sub s hlt] at h
    obtain ⟨h1, -⟩ := Prod.mk.injEq .. ▸ h
    refine ⟨by rw [← h1], ⟨_, by rw [← h1]⟩, fun hlen => ?_⟩
    rw [← h1]
    simp [hlen]
  · intro gen sub topic s r htop h
    obtain ⟨s0, out, hok, hinv, hr8⟩ := run_debate_ok gen sub topic htop
    rw [hok] at h
    obtain ⟨hs, -⟩ := Prod.mk.injEq .. ▸ h
    rw [← hs]
    exact ⟨by rw [hinv.1, hr8], hr8, by rw [hinv.2.1, hr8]⟩

/-- Witness for C3: a concrete Scientist commit and a concrete full session. -/
theorem C3_witness :
    ((agent_node_scientist (str "c") (str "d") sMid).1.round = sMid.round + 1 ∧
      (∃ t, (agent_node_scientist (str "c") (str "d") sMid).1.transcript =
        sMid.transcript ++ [t]) ∧
      (sMid.transcript.length = sMid.round →
        (agent_node_scientist (str "c") (str "d") sMid).1.transcript.length =
          (agent_node_scientist (str "c") (str "d") sMid).1.round)) ∧
    ((run_debate dupGen dupSub (str "t")).1.transcript.length = 8 ∧
      (run_debate dupGen dupSub (str "t")).1.round = 8 ∧
      (run_debate dupGen dupSub (str "t")).1.transcript.map Turn.round = List.range' 1 8) :=
  ⟨C3_round_transcript_sync.1 (str "c") (str "d") sMid
      (agent_node_scientist (str "c") (str "d") sMid).1 (by decide),
   C3_round_transcript_sync.2.2 dupGen dupSub (str "t")
      (run_debate dupGen dupSub (str "t")).1 (run_debate dupGen dupSub (str "t")).2
      (by decide) rfl⟩

/-! ### Judge scoring -/

lemma sci_beq_phil : (sciName == philName) = false := by decide

lemma phil_beq_phil : (philName == philName) = true := by decide

lemma foldl_score (l : List Turn) (a b : Nat) :
    l.foldl (fun (acc : Nat × Nat) item =>
        if item.agent = sciName then
          (acc.1 + turnPoints sciPrimary sciSecondary item, acc.2)
        else
          (acc.1, acc.2 + turnPoints philPrimary philSecondary item)) (a, b) =
      (a + ((l.filter (fun t => t.agent == sciName)).map
          (turnPoints sciPrimary sciSecondary)).sum,
       b + ((l.filter (fun t => !(t.agent == sciName))).map
          (turnPoints philPrimary philSecondary)).sum) := by
  induction l generalizing a b with
  | nil => simp
  | cons x xs ih =>
    by_cases hx : x.agent = sciName
    · simp [List.foldl_cons, List.filter_cons, hx, ih, Nat.add_assoc]
    · simp [List.foldl_cons, List.filter_cons, hx, ih, Nat.add_assoc]

lemma filter_phil (l : List Turn)
    (hag : ∀ t ∈ l, t.agent = sciName ∨ t.agent = philName) :
    l.filter (fun t => !(t.agent == sciName)) = l.filter (fun t => t.agent == philName) := by
  induction l with
  | nil => rfl
  | cons x xs ih =>
    have hx := hag x (List.mem_cons_self x xs)
    have ihh := ih (fun t ht => hag t (List.mem_cons_of_mem x ht))
    have hne : ¬ philName = sciName := by decide
    rcases hx with hx | hx <;>
      simp [List.filter_cons, hx, ihh, sci_beq_phil, phil_beq_phil, hne]

/-- Score formula exactly as the claim states it: for each of the participant's
turns whose case-folded text contains any member of the primary tier, 2 points;
plus 1 point per turn matching the secondary tier; plus the number of distinct
digests in the participant's full memory. -/
def specScore (primary secondary : List Str) (who : Str)
    (transcript : List Turn) (mem : List Str) : Nat :=
  ((transcript.filter (fun t => t.agent == who)).map (turnPoints primary secondary)).sum +
    mem.toFinset.card

/-- C1: on a completed 8-turn transcript the judge's totals are exactly the
claimed formula (keyword tiers per own turn plus distinct-digest bonus), the
strictly greater total wins with ties yielding `Tie`, and the justification
embeds both raw scores and the winner. -/
theorem C1_judge_scoring (s : DebateState)
    (h8 : s.transcript.length = 8)
    (hag : ∀ t ∈ s.transcript, t.agent = sciName ∨ t.agent = philName) :
    judgeScores s =
      (specScore sciPrimary sciSecondary sciName s.transcript s.memory_scientist,
       specScore philPrimary philSecondary philName s.transcript s.memory_philosopher) ∧
    judge_node s =
      ({ s with
          judge_summary := judgeSummary s,
          winner := judgeWinner s,
          judge_justification := judgeJust s },
        Except.ok ⟨judgeWinner s, judgeJust s, judgeSummary s⟩) ∧
    ((judgeScores s).2 < (judgeScores s).1 → judgeWinner s = sciName) ∧
    ((judgeScores s).1 < (judgeScores s).2 → judgeWinner s = philName) ∧
    ((judgeScores s).1 = (judgeScores s).2 → judgeWinner s = str "Tie") ∧
    judgeJust s = str "sci_score=" ++ natStr (judgeScores s).1 ++ str ", phil_score=" ++
      natStr (judgeScores s).2 ++ str " -> winner: " ++ judgeWinner s := by
  refine ⟨?_, judge_node_ok (by omega), fun hw => ?_, fun hw => ?_, fun hw => ?_, rfl⟩
  · unfold judgeScores
    rw [foldl_score, filter_phil s.transcript hag]
    simp [specScore, List.card_toFinset]
  · rw [judgeWinner, if_pos hw]
  · rw [judgeWinner, if_neg (by omega), if_pos hw]
  · rw [judgeWinner, if_neg (by omega), if_neg (by omega)]

def s8j : DebateState :=
  { topic := str "t", round := 8,
    transcript := (List.range' 1 8).map (fun r =>
      ⟨r, if r % 2 = 1 then sciName else philName,
        if r % 2 = 1 then str "risk data" else str "freedom slow"⟩),
    memory_scientist := [str "a", str "a"], memory_philosopher := [] }

/-- Witness for C1 on a concrete completed transcript. -/
theorem C1_witness :
    judgeScores s8j =
      (specScore sciPrimary sciSecondary sciName s8j.transcript s8j.memory_scientist,
       specScore philPrimary philSecondary philName s8j.transcript s8j.memory_philosopher) ∧
    judgeJust s8j = str "sci_score=" ++ natStr (judgeScores s8j).1 ++ str ", phil_score=" ++
      natStr (judgeScores s8j).2 ++ str " -> winner: " ++ judgeWinner s8j :=
  ⟨(C1_judge_scoring s8j (by decide) (by decide)).1,
   (C1_judge_scoring s8j (by decide) (by decide)).2.2.2.2.2⟩

end Debate
